import Mathlib

/-!
# Verification of the ReDD Block helper daemon

A shallow embedding of the privileged helper daemon
(`helper/redd-block-helper.js`) together with proofs about its
hosts-file editing, state persistence, command handling and
reconciliation logic.

JavaScript strings are modelled as `List Char` (sequences of code
points).  The `String.prototype` operations the daemon uses —
`indexOf`, `substring`, `includes`, `trimEnd`, `trimStart`,
`toLowerCase` (ASCII case folding) and `replace` with the two concrete
regexes `/^https?:\/\//` and `/\/.*$/` — are embedded as executable
Lean functions in this file.
-/

namespace ReddBlock

/-- Whitespace as stripped by JS `trimEnd`/`trimStart` (the ASCII
whitespace characters plus NBSP; the remaining exotic Unicode space
characters are not modelled). -/
def isJsWs (c : Char) : Bool :=
  c = ' ' || c = '\t' || c = '\n' || c = '\r' || c = '\x0b' || c = '\x0c' || c = '\u00A0'

/-- ASCII uppercase test. -/
def isUpper (c : Char) : Bool := 65 ≤ c.toNat && c.toNat ≤ 90

/-- JS `toLowerCase`, character by character (ASCII case folding; other
characters are returned unchanged). -/
def lowerChar (c : Char) : Char :=
  if h : 65 ≤ c.toNat ∧ c.toNat ≤ 90 then
    Char.ofNatAux (c.toNat + 32) (Or.inl (by omega))
  else c

theorem isUpper_lowerChar (c : Char) : isUpper (lowerChar c) = false := by
  unfold lowerChar isUpper
  split
  · rename_i h
    have hv : (Char.ofNatAux (c.toNat + 32) (Or.inl (by omega))).toNat = c.toNat + 32 := by
      simp [Char.ofNatAux, Char.toNat, UInt32.toNat, BitVec.toNat_ofNatLt]
    rw [Bool.eq_false_iff]
    intro hc
    rw [Bool.and_eq_true, decide_eq_true_eq, decide_eq_true_eq] at hc
    omega
  · rename_i h
    rw [Bool.eq_false_iff]
    intro hc
    rw [Bool.and_eq_true, decide_eq_true_eq, decide_eq_true_eq] at hc
    exact h hc

/-- `isPre p s` decides whether the list `p` is a prefix of `s`. -/
def isPre : List Char → List Char → Bool
  | [], _ => true
  | _ :: _, [] => false
  | a :: p, b :: s => a = b && isPre p s

/-- JS `s.indexOf(p)`: the index of the first occurrence of `p` in `s`,
`none` standing for JS's `-1`. -/
def firstIdx : List Char → List Char → Option Nat
  | [], p => if isPre p [] then some 0 else none
  | a :: t, p => if isPre p (a :: t) then some 0 else (firstIdx t p).map (· + 1)

/-- `p` occurs in `s` starting at index `i`. -/
def occursAt (s p : List Char) (i : Nat) : Prop := isPre p (s.drop i) = true

/-- `p` occurs somewhere in `s` (JS `s.includes(p)`). -/
def occurs (s p : List Char) : Prop := ∃ i, occursAt s p i

/-- `p` occurs nowhere in `s`. -/
def noOccur (s p : List Char) : Prop := ∀ i, ¬ occursAt s p i

/-- JS `trimStart`. -/
def trimStart (s : List Char) : List Char := s.dropWhile isJsWs

/-- JS `trimEnd`. -/
def trimEnd : List Char → List Char
  | [] => []
  | c :: t =>
    let r := trimEnd t
    if r.isEmpty && isJsWs c then [] else c :: r

/-! ## Basic facts about `isPre`, `firstIdx` and occurrences -/

theorem isPre_iff (p s : List Char) : isPre p s = true ↔ ∃ t, s = p ++ t := by
  induction p generalizing s with
  | nil => simp [isPre]
  | cons a p ih =>
    cases s with
    | nil => simp [isPre]
    | cons b s =>
      simp only [isPre, Bool.and_eq_true, decide_eq_true_eq, ih]
      constructor
      · rintro ⟨rfl, t, rfl⟩; exact ⟨t, rfl⟩
      · rintro ⟨t, ht⟩
        injection ht with h1 h2
        exact ⟨h1.symm, t, h2⟩

theorem isPre_append_self (p t : List Char) : isPre p (p ++ t) = true :=
  (isPre_iff p (p ++ t)).mpr ⟨t, rfl⟩

theorem isPre_refl (p : List Char) : isPre p p = true := by
  have := isPre_append_self p []
  simpa using this

theorem isPre_nil_iff (p : List Char) : isPre p [] = true ↔ p = [] := by
  cases p <;> simp [isPre]

theorem isPre_of_append {p x : List Char} (y : List Char) (h : isPre p x = true) :
    isPre p (x ++ y) = true := by
  rcases (isPre_iff p x).mp h with ⟨t, rfl⟩
  exact (isPre_iff _ _).mpr ⟨t ++ y, by simp⟩

theorem isPre_mem {p s : List Char} (h : isPre p s = true) {c : Char} (hc : c ∈ p) :
    c ∈ s := by
  rcases (isPre_iff p s).mp h with ⟨t, rfl⟩
  exact List.mem_append_left t hc

theorem occursAt_mem {s p : List Char} {i : Nat} (h : occursAt s p i) {c : Char}
    (hc : c ∈ p) : c ∈ s :=
  List.mem_of_mem_drop (isPre_mem h hc)

theorem noOccur_of_not_mem {s p : List Char} {c : Char} (hc : c ∈ p) (hs : c ∉ s) :
    noOccur s p :=
  fun _ h => hs (occursAt_mem h hc)

theorem occursAt_cons_succ (a : Char) (t p : List Char) (i : Nat) :
    occursAt (a :: t) p (i + 1) ↔ occursAt t p i := by
  simp [occursAt]

theorem firstIdx_eq_none_iff (s p : List Char) : firstIdx s p = none ↔ noOccur s p := by
  induction s with
  | nil =>
    by_cases h : isPre p [] = true
    · simp only [firstIdx, if_pos h]
      constructor
      · intro hc; cases hc
      · intro hno
        exact absurd (show occursAt [] p 0 by simpa [occursAt] using h) (hno 0)
    · simp only [firstIdx, if_neg h]
      constructor
      · intro _ i hc
        exact h (by simpa [occursAt] using hc)
      · intro _; trivial
  | cons a t ih =>
    by_cases h : isPre p (a :: t) = true
    · simp only [firstIdx, if_pos h]
      constructor
      · intro hc; cases hc
      · intro hno
        exact absurd (show occursAt (a :: t) p 0 by simpa [occursAt] using h) (hno 0)
    · simp only [firstIdx, if_neg h]
      rw [Option.map_eq_none', ih]
      constructor
      · intro hno i
        cases i with
        | zero =>
          intro hc
          exact h (by simpa [occursAt] using hc)
        | succ j => rw [occursAt_cons_succ]; exact hno j
      · intro hno j
        have := hno (j + 1)
        rwa [occursAt_cons_succ] at this

theorem firstIdx_eq_some_occursAt {s p : List Char} {i : Nat}
    (h : firstIdx s p = some i) : occursAt s p i := by
  induction s generalizing i with
  | nil =>
    simp only [firstIdx] at h
    split at h
    · rename_i hp
      injection h with h; subst h
      simpa [occursAt]
    · cases h
  | cons a t ih =>
    simp only [firstIdx] at h
    split at h
    · rename_i hp
      injection h with h; subst h
      simpa [occursAt]
    · rcases Option.map_eq_some'.mp h with ⟨j, hj, rfl⟩
      rw [occursAt_cons_succ]
      exact ih hj

theorem firstIdx_of_pre {s p : List Char} (h : isPre p s = true) :
    firstIdx s p = some 0 := by
  cases s <;> simp [firstIdx, h]

theorem occurs_of_firstIdx_isSome {s p : List Char}
    (h : (firstIdx s p).isSome = true) : occurs s p := by
  rcases Option.isSome_iff_exists.mp h with ⟨i, hi⟩
  exact ⟨i, firstIdx_eq_some_occursAt hi⟩

theorem firstIdx_isSome_of_occurs {s p : List Char} (h : occurs s p) :
    (firstIdx s p).isSome = true := by
  cases hf : firstIdx s p with
  | none =>
    rcases h with ⟨i, hi⟩
    exact absurd hi ((firstIdx_eq_none_iff s p).mp hf i)
  | some i => rfl

instance (s p : List Char) : Decidable (noOccur s p) :=
  decidable_of_iff (firstIdx s p = none) (firstIdx_eq_none_iff s p)

instance (s p : List Char) : Decidable (occurs s p) :=
  decidable_of_iff ((firstIdx s p).isSome = true)
    ⟨occurs_of_firstIdx_isSome, firstIdx_isSome_of_occurs⟩

/-! ## Occurrences across newline-separated content

The two hosts-file markers contain no newline character, so an
occurrence of a marker in `x ++ '\n' :: y` lies entirely inside `x` or
entirely inside `y`.  These lemmas let `firstIdx` be computed
compositionally over the generated block section. -/

theorem pre_append_nl {p x y : List Char} (h : isPre p (x ++ '\n' :: y) = true) :
    '\n' ∈ p ∨ isPre p x = true := by
  rcases (isPre_iff _ _).mp h with ⟨t, ht⟩
  by_cases hl : p.length ≤ x.length
  · right
    rw [isPre_iff]
    refine ⟨t.take (x.length - p.length), ?_⟩
    calc x = (x ++ '\n' :: y).take x.length := (List.take_left x _).symm
    _ = (p ++ t).take x.length := by rw [ht]
    _ = p.take x.length ++ t.take (x.length - p.length) := List.take_append_eq_append_take
    _ = p ++ t.take (x.length - p.length) := by rw [List.take_of_length_le hl]
  · left
    have hlt : x.length < p.length := Nat.lt_of_not_le hl
    have h2 : p = x ++ ('\n' :: y).take (p.length - x.length) := by
      calc p = (p ++ t).take p.length := (List.take_left p t).symm
      _ = (x ++ '\n' :: y).take p.length := by rw [ht]
      _ = x.take p.length ++ ('\n' :: y).take (p.length - x.length) :=
        List.take_append_eq_append_take
      _ = x ++ ('\n' :: y).take (p.length - x.length) := by
        rw [List.take_of_length_le (Nat.le_of_lt hlt)]
    have hk : p.length - x.length = (p.length - x.length - 1) + 1 := by omega
    rw [hk, List.take_succ_cons] at h2
    rw [h2]
    exact List.mem_append_right x (List.mem_cons_self _ _)

theorem isPre_nl_cons_false {p : List Char} (hne : p ≠ []) (hnl : '\n' ∉ p)
    (z : List Char) : isPre p ('\n' :: z) = false := by
  cases p with
  | nil => exact absurd rfl hne
  | cons c p' =>
    have hc : c ≠ '\n' := fun h => hnl (h ▸ List.mem_cons_self c p')
    simp [isPre, hc]

theorem firstIdx_cons_nl {p : List Char} (hne : p ≠ []) (hnl : '\n' ∉ p)
    (z : List Char) : firstIdx ('\n' :: z) p = (firstIdx z p).map (· + 1) := by
  simp [firstIdx, isPre_nl_cons_false hne hnl]

theorem firstIdx_skip {p : List Char} (x y : List Char) (hne : p ≠ [])
    (hnl : '\n' ∉ p) (hx : noOccur x p) :
    firstIdx (x ++ '\n' :: y) p = (firstIdx y p).map (fun j => x.length + 1 + j) := by
  induction x with
  | nil =>
    rw [List.nil_append, firstIdx_cons_nl hne hnl]
    cases firstIdx y p <;> simp [Nat.add_comm]
  | cons a x' ih =>
    have hx' : noOccur x' p := fun i hi => hx (i + 1) ((occursAt_cons_succ a x' p i).mpr hi)
    have hpre : isPre p (a :: (x' ++ '\n' :: y)) = false := by
      rw [Bool.eq_false_iff]
      intro hc
      rcases pre_append_nl (x := a :: x') (y := y) (by simpa using hc) with h | h
      · exact hnl h
      · exact hx 0 (by simpa [occursAt] using h)
    rw [List.cons_append, firstIdx, if_neg (by simp [hpre]), ih hx']
    cases firstIdx y p <;> simp
    omega

theorem noOccur_append_left {x y p : List Char} (h : noOccur (x ++ y) p) :
    noOccur x p := by
  intro i hi
  by_cases hl : i ≤ x.length
  · refine h i ?_
    unfold occursAt at hi ⊢
    rw [List.drop_append_eq_append_drop]
    exact isPre_of_append _ hi
  · have : x.drop i = [] := List.drop_eq_nil_of_le (by omega)
    unfold occursAt at hi
    rw [this, isPre_nil_iff] at hi
    subst hi
    exact h 0 (by simp [occursAt, isPre])

/-! ## `trimEnd` and `trimStart` -/

theorem trimEnd_cons (c : Char) (s : List Char) :
    trimEnd (c :: s) =
      if ((trimEnd s).isEmpty && isJsWs c) = true then [] else c :: trimEnd s := rfl

theorem trimEnd_eq_append (s : List Char) : ∃ t, s = trimEnd s ++ t := by
  induction s with
  | nil => exact ⟨[], rfl⟩
  | cons c s ih =>
    rcases ih with ⟨t, ht⟩
    by_cases h : ((trimEnd s).isEmpty && isJsWs c) = true
    · exact ⟨c :: s, by rw [trimEnd_cons, if_pos h, List.nil_append]⟩
    · exact ⟨t, by rw [trimEnd_cons, if_neg h, List.cons_append, ← ht]⟩

theorem trimEnd_all_ws {w : List Char} (h : ∀ c ∈ w, isJsWs c = true) :
    trimEnd w = [] := by
  induction w with
  | nil => rfl
  | cons c w ih =>
    have hw : trimEnd w = [] := ih fun d hd => h d (List.mem_cons_of_mem c hd)
    simp [trimEnd, hw, h c (List.mem_cons_self c w)]

theorem trimEnd_append_ws (x : List Char) {w : List Char}
    (h : ∀ c ∈ w, isJsWs c = true) : trimEnd (x ++ w) = trimEnd x := by
  induction x with
  | nil => simpa using trimEnd_all_ws h
  | cons c x ih => simp [trimEnd, ih]

theorem trimEnd_idem (s : List Char) : trimEnd (trimEnd s) = trimEnd s := by
  induction s with
  | nil => rfl
  | cons c s ih =>
    by_cases h : ((trimEnd s).isEmpty && isJsWs c) = true
    · rw [trimEnd_cons, if_pos h]; rfl
    · rw [trimEnd_cons, if_neg h, trimEnd_cons, ih, if_neg h]

theorem noOccur_trimEnd {s p : List Char} (h : noOccur s p) :
    noOccur (trimEnd s) p := by
  rcases trimEnd_eq_append s with ⟨t, ht⟩
  exact noOccur_append_left (ht ▸ h)

/-! ## The hosts rule editor

Embeddings of `containsBlock`, `removeBlockFromHosts` and
`addBlockToHosts` from `helper/redd-block-helper.js`. -/

def BLOCK_MARKER_START : List Char := "# BEGIN REDD BLOCK".toList

def BLOCK_MARKER_END : List Char := "# END REDD BLOCK".toList

/-- The fixed comment line emitted right after the start marker. -/
def MANAGED_LINE : List Char := "# Managed by ReDD Block - DO NOT EDIT".toList

/-- JS `content.includes(BLOCK_MARKER_START)`. -/
def containsBlock (content : List Char) : Bool :=
  (firstIdx content BLOCK_MARKER_START).isSome

/-- `removeBlockFromHosts`: locate the first start marker; delete from it
to just past the first end marker (or to end-of-file when there is no
end marker), trimming surrounding whitespace and re-joining the two
halves with a single newline. -/
def removeBlockFromHosts (content : List Char) : List Char :=
  match firstIdx content BLOCK_MARKER_START with
  | none => content
  | some si =>
    let before := trimEnd (content.take si)
    match firstIdx content BLOCK_MARKER_END with
    | none => before
    | some ei =>
      let after := trimStart (content.drop (ei + BLOCK_MARKER_END.length))
      if after.isEmpty then before else before ++ '\n' :: after

/-- JS `domain.replace(/^https?:\/\//, '')`: strip one leading scheme. -/
def stripScheme (s : List Char) : List Char :=
  if isPre "https://".toList s then s.drop 8
  else if isPre "http://".toList s then s.drop 7
  else s

/-- Line terminators, which `.` in a JS regex does not match. -/
def isLineTerm (c : Char) : Bool :=
  c = '\n' || c = '\r' || c = '\u2028' || c = '\u2029'

/-- JS `domain.replace(/\/.*$/, '')`: the regex matches at the first `/`
whose remainder contains no line terminator (`.` cannot cross one and
`$`, without the `m` flag, only matches at end of input); everything
from that slash on is deleted. -/
def stripPath : List Char → List Char
  | [] => []
  | c :: t => if c = '/' && !(t.any isLineTerm) then [] else c :: stripPath t

/-- The per-domain cleanup in `addBlockToHosts`:
`domain.replace(/^https?:\/\//, '').replace(/\/.*$/, '').toLowerCase()`. -/
def cleanDomain (d : List Char) : List Char :=
  (stripPath (stripScheme d)).map lowerChar

/-- The four redirect lines pushed for one domain. -/
def fourLines (d : List Char) : List (List Char) :=
  ["0.0.0.0 ".toList ++ cleanDomain d,
   "0.0.0.0 www.".toList ++ cleanDomain d,
   ":: ".toList ++ cleanDomain d,
   ":: www.".toList ++ cleanDomain d]

/-- The `blockLines` array built in `addBlockToHosts`. -/
def blockLines (domains : List (List Char)) : List (List Char) :=
  [[], BLOCK_MARKER_START, MANAGED_LINE] ++ domains.flatMap fourLines
    ++ [BLOCK_MARKER_END, []]

/-- JS `Array.prototype.join('\n')`. -/
def joinNL : List (List Char) → List Char
  | [] => []
  | [l] => l
  | l :: ls => l ++ '\n' :: joinNL ls

/-- `addBlockToHosts`: remove any existing section, then append the
freshly rendered one. -/
def addBlockToHosts (content : List Char) (domains : List (List Char)) : List Char :=
  trimEnd (removeBlockFromHosts content) ++ '\n' :: joinNL (blockLines domains)

/-! ## Structure of the rendered block section -/

/-- The newline-joined four redirect lines of one domain (each line
terminated by the joining newline). -/
def fourBlock (d : List Char) : List Char :=
  ("0.0.0.0 ".toList ++ cleanDomain d) ++ '\n' ::
    (("0.0.0.0 www.".toList ++ cleanDomain d) ++ '\n' ::
      ((":: ".toList ++ cleanDomain d) ++ '\n' ::
        ((":: www.".toList ++ cleanDomain d) ++ ['\n'])))

theorem joinNL_cons {l : List Char} {ls : List (List Char)} (h : ls ≠ []) :
    joinNL (l :: ls) = l ++ '\n' :: joinNL ls := by
  cases ls with
  | nil => exact absurd rfl h
  | cons l' ls' => rfl

theorem joinNL_four (d : List Char) (rest : List (List Char)) (h : rest ≠ []) :
    joinNL (fourLines d ++ rest) = fourBlock d ++ joinNL rest := by
  show joinNL (("0.0.0.0 ".toList ++ cleanDomain d) ::
      ("0.0.0.0 www.".toList ++ cleanDomain d) ::
      (":: ".toList ++ cleanDomain d) ::
      (":: www.".toList ++ cleanDomain d) :: rest) = _
  rw [joinNL_cons (by simp), joinNL_cons (by simp), joinNL_cons (by simp),
    joinNL_cons h]
  simp [fourBlock, List.append_assoc]

theorem joinNL_flat_append (ds : List (List Char)) :
    joinNL (ds.flatMap fourLines ++ [BLOCK_MARKER_END, []]) =
      ds.flatMap fourBlock ++ BLOCK_MARKER_END ++ ['\n'] := by
  induction ds with
  | nil => rfl
  | cons d ds ih =>
    have hne : ds.flatMap fourLines ++ [BLOCK_MARKER_END, []] ≠ [] := by
      intro hr
      exact absurd (List.append_eq_nil.mp hr).2 (by simp)
    rw [List.flatMap_cons, List.append_assoc, joinNL_four d _ hne, ih,
      List.flatMap_cons]
    simp [List.append_assoc]

theorem joinNL_blockLines (ds : List (List Char)) :
    joinNL (blockLines ds) =
      '\n' :: (BLOCK_MARKER_START ++ '\n' :: (MANAGED_LINE ++ '\n' ::
        (ds.flatMap fourBlock ++ BLOCK_MARKER_END ++ ['\n']))) := by
  unfold blockLines
  rw [show ([[], BLOCK_MARKER_START, MANAGED_LINE] ++ ds.flatMap fourLines
        ++ [BLOCK_MARKER_END, []] : List (List Char)) =
      [] :: BLOCK_MARKER_START :: MANAGED_LINE ::
        (ds.flatMap fourLines ++ [BLOCK_MARKER_END, []]) by simp]
  rw [joinNL_cons (by simp), joinNL_cons (by simp), joinNL_cons (by simp),
    joinNL_flat_append]
  rfl

/-! ## Locating the markers in freshly rendered content -/

theorem not_upper_cleanDomain (d : List Char) :
    ∀ c ∈ cleanDomain d, isUpper c = false := by
  intro c hc
  rcases List.mem_map.mp hc with ⟨a, _, rfl⟩
  exact isUpper_lowerChar a

theorem noOccur_pre_clean (pre d p : List Char) (c : Char) (hc : c ∈ p)
    (hU : isUpper c = true) (hpre : c ∉ pre) :
    noOccur (pre ++ cleanDomain d) p := by
  refine noOccur_of_not_mem hc ?_
  intro h
  rcases List.mem_append.mp h with h | h
  · exact hpre h
  · rw [not_upper_cleanDomain d c h] at hU
    cases hU

theorem firstIdx_domJ (ds : List (List Char)) (tail : List Char)
    (htail : firstIdx tail BLOCK_MARKER_END = some 0) :
    firstIdx (ds.flatMap fourBlock ++ tail) BLOCK_MARKER_END =
      some (ds.flatMap fourBlock).length := by
  induction ds with
  | nil => simpa using htail
  | cons d ds ih =>
    have hshape : (d :: ds).flatMap fourBlock ++ tail =
        ("0.0.0.0 ".toList ++ cleanDomain d) ++ '\n' ::
          (("0.0.0.0 www.".toList ++ cleanDomain d) ++ '\n' ::
            ((":: ".toList ++ cleanDomain d) ++ '\n' ::
              ((":: www.".toList ++ cleanDomain d) ++ '\n' ::
                (ds.flatMap fourBlock ++ tail)))) := by
      simp [fourBlock, List.append_assoc]
    rw [hshape]
    rw [firstIdx_skip _ _ (by decide) (by decide)
      (noOccur_pre_clean _ d _ 'E' (by decide) (by decide) (by decide))]
    rw [firstIdx_skip _ _ (by decide) (by decide)
      (noOccur_pre_clean _ d _ 'E' (by decide) (by decide) (by decide))]
    rw [firstIdx_skip _ _ (by decide) (by decide)
      (noOccur_pre_clean _ d _ 'E' (by decide) (by decide) (by decide))]
    rw [firstIdx_skip _ _ (by decide) (by decide)
      (noOccur_pre_clean _ d _ 'E' (by decide) (by decide) (by decide))]
    rw [ih]
    simp only [Option.map_some', Option.some.injEq]
    simp [fourBlock, List.length_append]
    omega

theorem firstIdx_start_of_append (b : List Char) (ds : List (List Char))
    (hS : noOccur b BLOCK_MARKER_START) :
    firstIdx (b ++ '\n' :: joinNL (blockLines ds)) BLOCK_MARKER_START =
      some (b.length + 2) := by
  rw [joinNL_blockLines, firstIdx_skip b _ (by decide) (by decide) hS,
    firstIdx_cons_nl (by decide) (by decide),
    firstIdx_of_pre (isPre_append_self _ _)]
  simp only [Option.map_some', Option.some.injEq]

theorem firstIdx_end_of_append (b : List Char) (ds : List (List Char))
    (hE : noOccur b BLOCK_MARKER_END) :
    firstIdx (b ++ '\n' :: joinNL (blockLines ds)) BLOCK_MARKER_END =
      some (b.length + 2 + BLOCK_MARKER_START.length + 1 + MANAGED_LINE.length + 1
        + (ds.flatMap fourBlock).length) := by
  rw [joinNL_blockLines, firstIdx_skip b _ (by decide) (by decide) hE,
    firstIdx_cons_nl (by decide) (by decide),
    firstIdx_skip BLOCK_MARKER_START _ (by decide) (by decide) (by decide),
    firstIdx_skip MANAGED_LINE _ (by decide) (by decide) (by decide),
    List.append_assoc,
    firstIdx_domJ ds _ (firstIdx_of_pre (isPre_append_self _ _))]
  simp only [Option.map_some', Option.some.injEq]
  omega

theorem removeBlock_eq_of_none {c : List Char}
    (h : firstIdx c BLOCK_MARKER_START = none) : removeBlockFromHosts c = c := by
  unfold removeBlockFromHosts
  rw [h]

theorem removeBlock_eq_of_some_none {c : List Char} {si : Nat}
    (h1 : firstIdx c BLOCK_MARKER_START = some si)
    (h2 : firstIdx c BLOCK_MARKER_END = none) :
    removeBlockFromHosts c = trimEnd (c.take si) := by
  unfold removeBlockFromHosts
  rw [h1, h2]

theorem removeBlock_eq_of_some_some {c : List Char} {si ei : Nat}
    (h1 : firstIdx c BLOCK_MARKER_START = some si)
    (h2 : firstIdx c BLOCK_MARKER_END = some ei) :
    removeBlockFromHosts c =
      (if (trimStart (c.drop (ei + BLOCK_MARKER_END.length))).isEmpty
       then trimEnd (c.take si)
       else trimEnd (c.take si) ++ '\n' ::
         trimStart (c.drop (ei + BLOCK_MARKER_END.length))) := by
  unfold removeBlockFromHosts
  rw [h1, h2]

/-- Removal of a freshly rendered section from `b ++ '\n' ++ section`
recovers exactly `b`, provided `b` contains no marker and carries no
trailing whitespace. -/
theorem remove_append_block (b : List Char) (ds : List (List Char))
    (hS : noOccur b BLOCK_MARKER_START) (hE : noOccur b BLOCK_MARKER_END)
    (hb : trimEnd b = b) :
    removeBlockFromHosts (b ++ '\n' :: joinNL (blockLines ds)) = b := by
  rw [removeBlock_eq_of_some_some (firstIdx_start_of_append b ds hS)
    (firstIdx_end_of_append b ds hE)]
  have htake : (b ++ '\n' :: joinNL (blockLines ds)).take (b.length + 2) =
      b ++ ['\n', '\n'] := by
    rw [joinNL_blockLines, List.take_append_eq_append_take,
      List.take_of_length_le (by omega : b.length ≤ b.length + 2)]
    have h2 : b.length + 2 - b.length = 2 := by omega
    rw [h2]
    rfl
  have hdrop : (b ++ '\n' :: joinNL (blockLines ds)).drop
      (b.length + 2 + BLOCK_MARKER_START.length + 1 + MANAGED_LINE.length + 1
        + (ds.flatMap fourBlock).length + BLOCK_MARKER_END.length) = ['\n'] := by
    have hsplit : b ++ '\n' :: joinNL (blockLines ds) =
        ((b ++ '\n' :: '\n' :: (BLOCK_MARKER_START ++ '\n' ::
          (MANAGED_LINE ++ '\n' :: ds.flatMap fourBlock)))
            ++ BLOCK_MARKER_END) ++ ['\n'] := by
      rw [joinNL_blockLines]
      simp [List.append_assoc]
    rw [hsplit]
    have hlen : b.length + 2 + BLOCK_MARKER_START.length + 1 + MANAGED_LINE.length
        + 1 + (ds.flatMap fourBlock).length + BLOCK_MARKER_END.length =
        ((b ++ '\n' :: '\n' :: (BLOCK_MARKER_START ++ '\n' ::
          (MANAGED_LINE ++ '\n' :: ds.flatMap fourBlock)))
            ++ BLOCK_MARKER_END).length := by
      simp [List.length_append]
      omega
    rw [hlen, List.drop_left]
  rw [htake, hdrop]
  have hws : trimStart ['\n'] = [] := by decide
  rw [hws]
  have hba : trimEnd (b ++ ['\n', '\n']) = b := by
    rw [trimEnd_append_ws b (by decide), hb]
  simp [hba]

/-! ## The daemon state machine

`currentBlock`, the persisted state file, the hosts file and the
checkup timer from `helper/redd-block-helper.js`, with the fallible
external effects (hosts write, state-file write, firewall tool, DNS
flush) driven by explicit outcome flags in `Env`. -/

/-- The single durable entity `{ domains, endTime, blocklistId }`. -/
structure BlockState where
  domains : List (List Char)
  endTime : Int
  blocklistId : List Char
deriving DecidableEq

/-- The parts of the machine outside the daemon process: the hosts file
and the persisted state document at `DATA_PATH` (`none` = missing or
unparsable file, `some doc` = a parsed `{ currentBlock }` document). -/
structure World where
  hosts : List Char
  stateFile : Option (Option BlockState)
deriving DecidableEq

/-- In-memory daemon state: `currentBlock`, whether the checkup interval
timer is running, and the (write-only) `hostsBackup`. -/
structure Helper where
  currentBlock : Option BlockState
  timerRunning : Bool
  hostsBackup : Option (List Char)
deriving DecidableEq

/-- Outcomes of the fallible external effects during one operation, plus
the current clock (`Date.now()`, in ms). -/
structure Env where
  now : Int
  hostsWriteOk : Bool
  stateWriteOk : Bool
  fwOk : Bool
  dnsOk : Bool
deriving DecidableEq

/-- Result object of `start-block` / `clear-block` / `ping` / unknown
commands. -/
structure CmdResult where
  success : Bool
  error : Option (List Char)
  message : Option (List Char)
deriving DecidableEq

/-- `applyFirewallRules` / `clearFirewallRules`: best-effort, returns a
boolean that the callers discard.  (Its platform side effects live
outside the modelled `World`.) -/
def applyFirewallRules (e : Env) (_domains : List (List Char)) : Bool := e.fwOk

def clearFirewallRules (e : Env) : Bool := e.fwOk

/-- `flushDNSCache`: best-effort, all failures swallowed. -/
def flushDNSCache (e : Env) : Bool := e.dnsOk

/-- `saveState`: rewrite the state document wholesale; a write failure is
logged and leaves the file as it was. -/
def saveState (w : World) (e : Env) (cb : Option BlockState) : World :=
  if e.stateWriteOk then { w with stateFile := some cb } else w

/-- `loadState` on daemon start: restore `currentBlock` from the parsed
document only when it is present and `endTime > Date.now()`; a missing
or unparsable file restores nothing. -/
def loadState (fileData : Option (Option BlockState)) (now : Int) :
    Option BlockState :=
  match fileData with
  | some (some b) => if b.endTime > now then some b else none
  | _ => none

/-- `startBlock(domains, endTime, blocklistId)`. -/
def startBlock (h : Helper) (w : World) (e : Env) (domains : List (List Char))
    (endTime : Int) (blocklistId : List Char) : Helper × World × CmdResult :=
  let h1 : Helper := { h with hostsBackup := some w.hosts }
  let newContent := addBlockToHosts w.hosts domains
  if e.hostsWriteOk then
    let w1 : World := { w with hosts := newContent }
    let _fw := applyFirewallRules e domains
    let _dns := flushDNSCache e
    let cb : Option BlockState := some ⟨domains, endTime, blocklistId⟩
    let h2 : Helper := { h1 with currentBlock := cb, timerRunning := true }
    let w2 := saveState w1 e cb
    (h2, w2, ⟨true, none, none⟩)
  else
    (h1, w, ⟨false, some "Failed to write hosts file".toList, none⟩)

/-- `clearBlock()`. -/
def clearBlock (h : Helper) (w : World) (e : Env) : Helper × World × CmdResult :=
  match h.currentBlock with
  | none => (h, w, ⟨true, none, some "No active block".toList⟩)
  | some _ =>
    let cleanContent := removeBlockFromHosts w.hosts
    if e.hostsWriteOk then
      let w1 : World := { w with hosts := cleanContent }
      let _fw := clearFirewallRules e
      let _dns := flushDNSCache e
      let h1 : Helper := { h with currentBlock := none }
      let w2 := saveState w1 e none
      (h1, w2, ⟨true, none, none⟩)
    else
      (h, w, ⟨false, some "Failed to clear hosts file".toList, none⟩)

/-- `getStatus()` response shape. -/
inductive StatusResult where
  | inactive
  | active (domains : List (List Char)) (endTime : Int) (blocklistId : List Char)
      (remainingMs : Int)
deriving DecidableEq

/-- `getStatus()`: read-only view of `currentBlock`. -/
def getStatus (h : Helper) (now : Int) : StatusResult :=
  match h.currentBlock with
  | none => .inactive
  | some b => .active b.domains b.endTime b.blocklistId (max 0 (b.endTime - now))

/-- `checkBlockIntegrity()`: while a block is active, re-append the
section if the start marker has vanished (the write outcome is
discarded); otherwise do nothing. -/
def checkBlockIntegrity (h : Helper) (w : World) (e : Env) : World :=
  match h.currentBlock with
  | none => w
  | some b =>
    if containsBlock w.hosts then w
    else if e.hostsWriteOk then
      { w with hosts := addBlockToHosts w.hosts b.domains }
    else w

/-- One reconciliation tick of the 1-second checkup interval. -/
def tick (h : Helper) (w : World) (e : Env) : Helper × World :=
  match h.currentBlock with
  | some b =>
    if e.now ≥ b.endTime then
      ((clearBlock h w e).1, (clearBlock h w e).2.1)
    else
      (h, checkBlockIntegrity h w e)
  | none => ({ h with timerRunning := false }, w)

/-- Wire commands accepted by `handleCommand`. -/
inductive Command where
  | startB (domains : List (List Char)) (endTime : Int) (blocklistId : List Char)
  | clearB
  | status
  | ping
  | unknown (name : List Char)

/-- Responses: either a command-result object or the status object. -/
inductive Response where
  | cmd (r : CmdResult)
  | status (s : StatusResult)
deriving DecidableEq

/-- `handleCommand`, dispatching on `command.action`. -/
def handleCommand (h : Helper) (w : World) (e : Env) :
    Command → Helper × World × Response
  | .startB d t i =>
    let (h1, w1, r) := startBlock h w e d t i
    (h1, w1, .cmd r)
  | .clearB =>
    let (h1, w1, r) := clearBlock h w e
    (h1, w1, .cmd r)
  | .status => (h, w, .status (getStatus h e.now))
  | .ping => (h, w, .cmd ⟨true, none, some "pong".toList⟩)
  | .unknown n => (h, w, .cmd ⟨false, some ("Unknown command: ".toList ++ n), none⟩)

/-! ## Derived facts about the state machine -/

/-- Freshly inserted content always contains the start marker. -/
theorem containsBlock_addBlock (c : List Char) (ds : List (List Char)) :
    containsBlock (addBlockToHosts c ds) = true := by
  unfold containsBlock
  apply firstIdx_isSome_of_occurs
  refine ⟨(trimEnd (removeBlockFromHosts c)).length + 2, ?_⟩
  unfold occursAt addBlockToHosts
  rw [joinNL_blockLines]
  have hsplit : trimEnd (removeBlockFromHosts c) ++ '\n' ::
      '\n' :: (BLOCK_MARKER_START ++ '\n' :: (MANAGED_LINE ++ '\n' ::
        (ds.flatMap fourBlock ++ BLOCK_MARKER_END ++ ['\n']))) =
      (trimEnd (removeBlockFromHosts c) ++ ['\n', '\n']) ++
        (BLOCK_MARKER_START ++ '\n' :: (MANAGED_LINE ++ '\n' ::
          (ds.flatMap fourBlock ++ BLOCK_MARKER_END ++ ['\n']))) := by
    simp [List.append_assoc]
  rw [hsplit]
  have hlen : (trimEnd (removeBlockFromHosts c) ++ ['\n', '\n']).length =
      (trimEnd (removeBlockFromHosts c)).length + 2 := by simp
  rw [← hlen, List.drop_left]
  exact isPre_append_self _ _

theorem checkIntegrity_absent {h : Helper} {w : World} {e : Env} {b : BlockState}
    (hcb : h.currentBlock = some b) (hwr : e.hostsWriteOk = true)
    (habs : containsBlock w.hosts = false) :
    checkBlockIntegrity h w e =
      { w with hosts := addBlockToHosts w.hosts b.domains } := by
  unfold checkBlockIntegrity
  rw [hcb]
  simp [habs, hwr]

theorem checkIntegrity_present {h : Helper} {w : World} {e : Env}
    (hpres : containsBlock w.hosts = true) : checkBlockIntegrity h w e = w := by
  unfold checkBlockIntegrity
  cases hcb : h.currentBlock with
  | none => rfl
  | some b => simp [hpres]

theorem tick_not_expired {h : Helper} {w : World} {e : Env} {b : BlockState}
    (hcb : h.currentBlock = some b) (hexp : e.now < b.endTime) :
    tick h w e = (h, checkBlockIntegrity h w e) := by
  simp [tick, hcb, show ¬ e.now ≥ b.endTime from by omega]

/-! ## The claims -/

/-- C1: On daemon start, a persisted state document whose block has
`endTime ≤ now` is dropped (in-memory `currentBlock` stays null); only a
block with `endTime` strictly greater than `now` is restored.  Nothing
is restored from a missing/unparsable file or a document with a null
`currentBlock`. -/
theorem C1_load_drops_expired (b : BlockState) (now : Int) :
    (b.endTime ≤ now → loadState (some (some b)) now = none)
    ∧ (now < b.endTime → loadState (some (some b)) now = some b)
    ∧ loadState none now = none
    ∧ loadState (some none) now = none := by
  refine ⟨?_, ?_, rfl, rfl⟩
  · intro h
    show (if b.endTime > now then some b else none) = none
    rw [if_neg (by omega)]
  · intro h
    show (if b.endTime > now then some b else none) = some b
    rw [if_pos (by omega)]

theorem C1_witness :
    ((⟨[], 5, []⟩ : BlockState).endTime ≤ 10)
    ∧ loadState (some (some (⟨[], 5, []⟩ : BlockState))) 10 = none :=
  ⟨by decide, (C1_load_drops_expired ⟨[], 5, []⟩ 10).1 (by decide)⟩

/-- C2: For an active, unexpired block, if the block section is absent
from the hosts content and one reconciliation tick runs (with the hosts
write succeeding), the hosts content afterwards is exactly the section
rebuilt from the current BlockState's domain list, and it contains the
block section again. -/
theorem C2_tick_restores_section (h : Helper) (w : World) (e : Env)
    (b : BlockState) (hcb : h.currentBlock = some b) (hexp : e.now < b.endTime)
    (hwr : e.hostsWriteOk = true) (habs : containsBlock w.hosts = false) :
    (tick h w e).2.hosts = addBlockToHosts w.hosts b.domains
    ∧ containsBlock (tick h w e).2.hosts = true := by
  have ht : (tick h w e).2 = checkBlockIntegrity h w e := by
    rw [tick_not_expired hcb hexp]
  rw [ht, checkIntegrity_absent hcb hwr habs]
  exact ⟨rfl, containsBlock_addBlock w.hosts b.domains⟩

set_option maxRecDepth 100000 in
theorem C2_witness :
    (⟨some ⟨["x.com".toList], 100, "a".toList⟩, true, none⟩ : Helper).currentBlock =
      some ⟨["x.com".toList], 100, "a".toList⟩
    ∧ containsBlock (⟨"# hosts\n".toList, some none⟩ : World).hosts = false
    ∧ (tick ⟨some ⟨["x.com".toList], 100, "a".toList⟩, true, none⟩
        ⟨"# hosts\n".toList, some none⟩ ⟨0, true, true, true, true⟩).2.hosts =
      addBlockToHosts "# hosts\n".toList ["x.com".toList]
    ∧ containsBlock (tick ⟨some ⟨["x.com".toList], 100, "a".toList⟩, true, none⟩
        ⟨"# hosts\n".toList, some none⟩ ⟨0, true, true, true, true⟩).2.hosts = true := by
  refine ⟨rfl, by decide, ?_⟩
  have := C2_tick_restores_section
    ⟨some ⟨["x.com".toList], 100, "a".toList⟩, true, none⟩
    ⟨"# hosts\n".toList, some none⟩ ⟨0, true, true, true, true⟩
    ⟨["x.com".toList], 100, "a".toList⟩ rfl (by decide) rfl (by decide)
  exact this

set_option maxRecDepth 400000 in
/-- C3, counterexample: `startBlock` performs no validation of
`endTime`.  With the clock at `now = 1000`, a `start-block` with
`endTime = 0` (already expired) succeeds and persists the expired
state, contradicting the claim that an accepted command always has
`endTime` strictly in the future. -/
theorem C3_counterexample :
    (startBlock ⟨none, false, none⟩ ⟨"127.0.0.1 localhost\n".toList, some none⟩
        ⟨1000, true, true, true, true⟩ ["x.com".toList] 0 "a".toList).2.2.success = true
    ∧ (startBlock ⟨none, false, none⟩ ⟨"127.0.0.1 localhost\n".toList, some none⟩
        ⟨1000, true, true, true, true⟩ ["x.com".toList] 0 "a".toList).2.1.stateFile =
      some (some ⟨["x.com".toList], 0, "a".toList⟩)
    ∧ ¬ ((1000 : Int) < 0) := by decide

/-- C3, amended: a `start-block` whose hosts write (and state write)
succeeds returns success and sets and persists exactly the supplied
BlockState, whatever its `endTime` — including an `endTime` not in the
future; the daemon performs no expiry validation at accept time. -/
theorem C3_amended (h : Helper) (w : World) (e : Env) (d : List (List Char))
    (t : Int) (i : List Char) (hw : e.hostsWriteOk = true)
    (hs : e.stateWriteOk = true) :
    (startBlock h w e d t i).2.2.success = true
    ∧ (startBlock h w e d t i).1.currentBlock = some ⟨d, t, i⟩
    ∧ (startBlock h w e d t i).2.1.stateFile = some (some ⟨d, t, i⟩) := by
  simp [startBlock, saveState, hw, hs]

set_option maxRecDepth 400000 in
theorem C3_witness :
    (⟨1000, true, true, true, true⟩ : Env).hostsWriteOk = true
    ∧ (⟨1000, true, true, true, true⟩ : Env).stateWriteOk = true
    ∧ ((startBlock ⟨none, false, none⟩ ⟨"".toList, none⟩
          ⟨1000, true, true, true, true⟩ ["a.com".toList] (-5) "b".toList).2.2.success = true
        ∧ (startBlock ⟨none, false, none⟩ ⟨"".toList, none⟩
            ⟨1000, true, true, true, true⟩ ["a.com".toList] (-5) "b".toList).1.currentBlock =
          some ⟨["a.com".toList], -5, "b".toList⟩
        ∧ (startBlock ⟨none, false, none⟩ ⟨"".toList, none⟩
            ⟨1000, true, true, true, true⟩ ["a.com".toList] (-5) "b".toList).2.1.stateFile =
          some (some ⟨["a.com".toList], -5, "b".toList⟩)) :=
  ⟨rfl, rfl, C3_amended ⟨none, false, none⟩ ⟨"".toList, none⟩
    ⟨1000, true, true, true, true⟩ ["a.com".toList] (-5) "b".toList rfl rfl⟩

/-- C4: `start-block` and `clear-block` fail (returning
`{success:false, error}`) exactly when a hosts-file write is attempted
and fails; firewall and DNS-flush outcomes never affect the returned
result; and a failed hosts write leaves the in-memory BlockState and
the persisted state file (indeed the whole external world) unchanged.
For `clear-block` with no active block no write is attempted and the
command succeeds. -/
theorem C4_result_gating (h : Helper) (w : World) (e : Env)
    (d : List (List Char)) (t : Int) (i : List Char) :
    ((startBlock h w e d t i).2.2.success = false ↔ e.hostsWriteOk = false)
    ∧ ((startBlock h w e d t i).2.2.error.isSome = true ↔ e.hostsWriteOk = false)
    ∧ (e.hostsWriteOk = false →
        (startBlock h w e d t i).1.currentBlock = h.currentBlock
        ∧ (startBlock h w e d t i).2.1 = w)
    ∧ (∀ e' : Env, e'.now = e.now → e'.hostsWriteOk = e.hostsWriteOk →
        e'.stateWriteOk = e.stateWriteOk →
        (startBlock h w e' d t i).2.2 = (startBlock h w e d t i).2.2)
    ∧ ((clearBlock h w e).2.2.success = false ↔
        (h.currentBlock ≠ none ∧ e.hostsWriteOk = false))
    ∧ (e.hostsWriteOk = false →
        (clearBlock h w e).1.currentBlock = h.currentBlock
        ∧ (clearBlock h w e).2.1 = w)
    ∧ (∀ e' : Env, e'.now = e.now → e'.hostsWriteOk = e.hostsWriteOk →
        e'.stateWriteOk = e.stateWriteOk →
        (clearBlock h w e').2.2 = (clearBlock h w e).2.2) := by
  refine ⟨?_, ?_, ?_, ?_, ?_, ?_, ?_⟩
  · cases hw : e.hostsWriteOk <;> simp [startBlock, saveState, hw]
  · cases hw : e.hostsWriteOk <;> simp [startBlock, saveState, hw]
  · intro hw
    simp [startBlock, hw]
  · intro e' h1 h2 h3
    cases hw : e.hostsWriteOk <;>
      simp [startBlock, saveState, hw, h2, hw ▸ h2]
  · cases hcb : h.currentBlock with
    | none => simp [clearBlock, hcb]
    | some b =>
      cases hw : e.hostsWriteOk <;> simp [clearBlock, saveState, hcb, hw]
  · intro hw
    cases hcb : h.currentBlock with
    | none => simp [clearBlock, hcb]
    | some b => simp [clearBlock, hcb, hw]
  · intro e' h1 h2 h3
    cases hcb : h.currentBlock with
    | none => simp [clearBlock, hcb]
    | some b =>
      cases hw : e.hostsWriteOk <;>
        simp [clearBlock, saveState, hcb, hw, hw ▸ h2]

theorem C4_witness :
    ((⟨7, false, true, true, true⟩ : Env).hostsWriteOk = false)
    ∧ ((startBlock ⟨none, false, none⟩ ⟨['x'], none⟩ ⟨7, false, true, true, true⟩
          [] 3 []).2.2.success = false ↔
        (⟨7, false, true, true, true⟩ : Env).hostsWriteOk = false)
    ∧ ((startBlock ⟨none, false, none⟩ ⟨['x'], none⟩ ⟨7, false, true, true, true⟩
          [] 3 []).1.currentBlock = none
        ∧ (startBlock ⟨none, false, none⟩ ⟨['x'], none⟩ ⟨7, false, true, true, true⟩
            [] 3 []).2.1 = ⟨['x'], none⟩) :=
  ⟨rfl,
    (C4_result_gating ⟨none, false, none⟩ ⟨['x'], none⟩ ⟨7, false, true, true, true⟩
      [] 3 []).1,
    (C4_result_gating ⟨none, false, none⟩ ⟨['x'], none⟩ ⟨7, false, true, true, true⟩
      [] 3 []).2.2.1 rfl⟩

set_option maxRecDepth 400000 in
/-- C5, counterexample: insertion is *not* idempotent for every content
string.  For content consisting of a stray end marker (no start
marker), the first insertion appends a section; during the second
insertion, removal pairs the appended start marker with the *stray*
end marker, leaves the appended section's own markers behind, and the
result grows instead of staying fixed. -/
theorem C5_counterexample :
    addBlockToHosts (addBlockToHosts "# END REDD BLOCK".toList []) [] ≠
      addBlockToHosts "# END REDD BLOCK".toList [] := by decide

/-- C5, amended: insertion is idempotent for every domain list and
every content string whose residue after removal contains neither
marker — in particular for all well-formed content (no markers at all,
or a single properly delimited block section).  For content with stray
markers (for example an end marker preceding any start marker) a second
application can differ, as the counterexample shows. -/
theorem C5_idempotent (c : List Char) (ds : List (List Char))
    (hS : noOccur (removeBlockFromHosts c) BLOCK_MARKER_START)
    (hE : noOccur (removeBlockFromHosts c) BLOCK_MARKER_END) :
    addBlockToHosts (addBlockToHosts c ds) ds = addBlockToHosts c ds := by
  have hb : removeBlockFromHosts (addBlockToHosts c ds) =
      trimEnd (removeBlockFromHosts c) := by
    unfold addBlockToHosts
    exact remove_append_block _ ds (noOccur_trimEnd hS) (noOccur_trimEnd hE)
      (trimEnd_idem _)
  show trimEnd (removeBlockFromHosts (addBlockToHosts c ds)) ++ '\n' ::
    joinNL (blockLines ds) = addBlockToHosts c ds
  rw [hb, trimEnd_idem]
  rfl

set_option maxRecDepth 400000 in
theorem C5_witness :
    noOccur (removeBlockFromHosts "127.0.0.1 localhost".toList) BLOCK_MARKER_START
    ∧ noOccur (removeBlockFromHosts "127.0.0.1 localhost".toList) BLOCK_MARKER_END
    ∧ addBlockToHosts (addBlockToHosts "127.0.0.1 localhost".toList
        ["foo.com".toList]) ["foo.com".toList] =
      addBlockToHosts "127.0.0.1 localhost".toList ["foo.com".toList] :=
  ⟨by decide, by decide,
    C5_idempotent "127.0.0.1 localhost".toList ["foo.com".toList]
      (by decide) (by decide)⟩

/-- C6: round trip.  For well-formed starting content — content in
which neither marker occurs — removal after insertion returns exactly
`trimEnd c`, i.e. the original content up to (trailing) whitespace
normalization, for every domain list. -/
theorem C6_round_trip (c : List Char) (ds : List (List Char))
    (hS : noOccur c BLOCK_MARKER_START) (hE : noOccur c BLOCK_MARKER_END) :
    removeBlockFromHosts (addBlockToHosts c ds) = trimEnd c := by
  have hrc : removeBlockFromHosts c = c :=
    removeBlock_eq_of_none ((firstIdx_eq_none_iff _ _).mpr hS)
  unfold addBlockToHosts
  rw [hrc]
  exact remove_append_block _ ds (noOccur_trimEnd (hrc ▸ hS))
    (noOccur_trimEnd (hrc ▸ hE)) (trimEnd_idem c)

set_option maxRecDepth 400000 in
theorem C6_witness :
    noOccur "127.0.0.1 localhost\n".toList BLOCK_MARKER_START
    ∧ noOccur "127.0.0.1 localhost\n".toList BLOCK_MARKER_END
    ∧ removeBlockFromHosts (addBlockToHosts "127.0.0.1 localhost\n".toList
        ["Foo.com".toList, "bar.org".toList]) =
      trimEnd "127.0.0.1 localhost\n".toList :=
  ⟨by decide, by decide,
    C6_round_trip "127.0.0.1 localhost\n".toList
      ["Foo.com".toList, "bar.org".toList] (by decide) (by decide)⟩

/-- C7: the rendered output appends, after the retained content, the
start marker line, the fixed managed-comment line, then for each
supplied domain exactly four redirect lines — `0.0.0.0 d`,
`0.0.0.0 www.d`, `:: d`, `:: www.d`, where `d` is the domain with any
`http(s)://` scheme stripped, any `/...` path suffix stripped, then
lowercased — and finally the end marker line; the line count of the
built section is `5 + 4·|domains|`. -/
theorem C7_section_structure (content : List Char) (ds : List (List Char)) :
    (addBlockToHosts content ds =
      trimEnd (removeBlockFromHosts content) ++ '\n' :: '\n' ::
        (BLOCK_MARKER_START ++ '\n' :: (MANAGED_LINE ++ '\n' ::
          (ds.flatMap fourBlock ++ BLOCK_MARKER_END ++ ['\n']))))
    ∧ (∀ d, fourBlock d =
        ("0.0.0.0 ".toList ++ (stripPath (stripScheme d)).map lowerChar) ++ '\n' ::
          (("0.0.0.0 www.".toList ++ (stripPath (stripScheme d)).map lowerChar) ++ '\n' ::
            ((":: ".toList ++ (stripPath (stripScheme d)).map lowerChar) ++ '\n' ::
              ((":: www.".toList ++ (stripPath (stripScheme d)).map lowerChar)
                ++ ['\n']))))
    ∧ (blockLines ds).length = 5 + 4 * ds.length := by
  refine ⟨?_, fun d => rfl, ?_⟩
  · unfold addBlockToHosts
    rw [joinNL_blockLines]
  · have hflat : ∀ ds' : List (List Char),
        (ds'.flatMap fourLines).length = 4 * ds'.length := by
      intro ds'
      induction ds' with
      | nil => rfl
      | cons d ds' ih =>
        rw [List.flatMap_cons, List.length_append, ih]
        simp [fourLines]
        omega
    simp [blockLines, hflat]
    omega

/-- C8: when the content contains the start marker but no end marker,
removal deletes everything from the start marker to end-of-file
(keeping only the trimmed content before the first start marker); when
the content contains no start marker, removal returns it unchanged. -/
theorem C8_remove_fail_safe (c : List Char) :
    (noOccur c BLOCK_MARKER_START → removeBlockFromHosts c = c)
    ∧ (∀ si, firstIdx c BLOCK_MARKER_START = some si →
        noOccur c BLOCK_MARKER_END →
        removeBlockFromHosts c = trimEnd (c.take si)) := by
  constructor
  · intro h
    exact removeBlock_eq_of_none ((firstIdx_eq_none_iff _ _).mpr h)
  · intro si h1 h2
    exact removeBlock_eq_of_some_none h1 ((firstIdx_eq_none_iff _ _).mpr h2)

set_option maxRecDepth 100000 in
theorem C8_witness :
    firstIdx "x\n# BEGIN REDD BLOCK\n0.0.0.0 a.com".toList BLOCK_MARKER_START = some 2
    ∧ noOccur "x\n# BEGIN REDD BLOCK\n0.0.0.0 a.com".toList BLOCK_MARKER_END
    ∧ removeBlockFromHosts "x\n# BEGIN REDD BLOCK\n0.0.0.0 a.com".toList =
      trimEnd ("x\n# BEGIN REDD BLOCK\n0.0.0.0 a.com".toList.take 2) :=
  ⟨by decide, by decide,
    (C8_remove_fail_safe "x\n# BEGIN REDD BLOCK\n0.0.0.0 a.com".toList).2 2
      (by decide) (by decide)⟩

/-- C9: `get-status` leaves the daemon state and the outside world
untouched, answers `{active:false}` exactly when no BlockState exists,
and otherwise `{active:true, domains, endTime, blocklistId,
remainingMs}` with `remainingMs = max 0 (endTime - now)`; its response
is independent of the hosts-file content (it neither reads nor repairs
it). -/
theorem C9_get_status (h : Helper) (w : World) (e : Env) :
    (handleCommand h w e .status).1 = h
    ∧ (handleCommand h w e .status).2.1 = w
    ∧ (h.currentBlock = none →
        (handleCommand h w e .status).2.2 = .status .inactive)
    ∧ (∀ b, h.currentBlock = some b →
        (handleCommand h w e .status).2.2 =
          .status (.active b.domains b.endTime b.blocklistId
            (max 0 (b.endTime - e.now))))
    ∧ (∀ w' : World,
        (handleCommand h w' e .status).2.2 = (handleCommand h w e .status).2.2) := by
  refine ⟨rfl, rfl, ?_, ?_, fun _ => rfl⟩
  · intro hn
    simp [handleCommand, getStatus, hn]
  · intro b hb
    simp [handleCommand, getStatus, hb]

theorem C9_witness :
    ((⟨none, false, none⟩ : Helper).currentBlock = none
      ∧ (handleCommand ⟨none, false, none⟩ ⟨[], none⟩ ⟨0, true, true, true, true⟩
          .status).2.2 = .status .inactive)
    ∧ ((⟨some ⟨[['a']], 9, ['b']⟩, true, none⟩ : Helper).currentBlock =
        some ⟨[['a']], 9, ['b']⟩
      ∧ (handleCommand ⟨some ⟨[['a']], 9, ['b']⟩, true, none⟩ ⟨[], none⟩
          ⟨4, true, true, true, true⟩ .status).2.2 =
        .status (.active [['a']] 9 ['b'] (max 0 ((9 : Int) - 4)))) :=
  ⟨⟨rfl, (C9_get_status ⟨none, false, none⟩ ⟨[], none⟩
      ⟨0, true, true, true, true⟩).2.2.1 rfl⟩,
   ⟨rfl, (C9_get_status ⟨some ⟨[['a']], 9, ['b']⟩, true, none⟩ ⟨[], none⟩
      ⟨4, true, true, true, true⟩).2.2.2.1 ⟨[['a']], 9, ['b']⟩ rfl⟩⟩

set_option maxRecDepth 100000 in
/-- C10, counterexample: the claim's second sentence fails for an
*expired* active BlockState.  With `currentBlock` non-null,
`endTime = 0` and the clock at `5`, the tick takes the expiry path and
clears the hosts file even though the start marker is present, so the
hosts content does not stay unchanged. -/
theorem C10_counterexample :
    ((⟨some ⟨["x.com".toList], 0, "a".toList⟩, true, none⟩ : Helper).currentBlock
      ≠ none)
    ∧ containsBlock "# BEGIN REDD BLOCK\nx".toList = true
    ∧ (tick ⟨some ⟨["x.com".toList], 0, "a".toList⟩, true, none⟩
        ⟨"# BEGIN REDD BLOCK\nx".toList, none⟩ ⟨5, true, true, true, true⟩).2.hosts ≠
      "# BEGIN REDD BLOCK\nx".toList := by decide

/-- C10, amended: the integrity check's notion of "block section
present" is exactly "the start marker occurs somewhere in the content"
(`containsBlock` says nothing about the end marker or the domain
lines); consequently the integrity check leaves the hosts content
untouched whenever the start marker is present, even if the rest of
the section has been altered or deleted — and so does a reconciliation
tick, provided the active block has not yet expired (an expired block
takes the clear path instead). -/
theorem C10_marker_only_integrity :
    (∀ content, containsBlock content = true ↔ occurs content BLOCK_MARKER_START)
    ∧ (∀ (h : Helper) (w : World) (e : Env) (b : BlockState),
        h.currentBlock = some b → containsBlock w.hosts = true →
        checkBlockIntegrity h w e = w)
    ∧ (∀ (h : Helper) (w : World) (e : Env) (b : BlockState),
        h.currentBlock = some b → containsBlock w.hosts = true →
        e.now < b.endTime → (tick h w e).2 = w) := by
  refine ⟨?_, ?_, ?_⟩
  · intro content
    exact ⟨occurs_of_firstIdx_isSome, firstIdx_isSome_of_occurs⟩
  · intro h w e b hcb hpres
    exact checkIntegrity_present hpres
  · intro h w e b hcb hpres hexp
    rw [tick_not_expired hcb hexp]
    exact checkIntegrity_present hpres

set_option maxRecDepth 100000 in
theorem C10_witness :
    containsBlock "# BEGIN REDD BLOCK\ngarbage, no domain lines, no end marker".toList
      = true
    ∧ (tick ⟨some ⟨["x.com".toList], 50, "a".toList⟩, true, none⟩
        ⟨"# BEGIN REDD BLOCK\ngarbage, no domain lines, no end marker".toList, none⟩
        ⟨0, true, true, true, true⟩).2 =
      ⟨"# BEGIN REDD BLOCK\ngarbage, no domain lines, no end marker".toList, none⟩ :=
  ⟨by decide,
    C10_marker_only_integrity.2.2
      ⟨some ⟨["x.com".toList], 50, "a".toList⟩, true, none⟩
      ⟨"# BEGIN REDD BLOCK\ngarbage, no domain lines, no end marker".toList, none⟩
      ⟨0, true, true, true, true⟩ ⟨["x.com".toList], 50, "a".toList⟩
      rfl (by decide) (by decide)⟩

end ReddBlock
